import Mathlib

/-!
Verification development for the `modbus_test_app` repository.

Shallow embedding of the register data model (`data_model.py`), the client
validation prefix (`client.py`) and the server lifecycle (`servers.py`).
Python integers are modelled as `Int`, Python `str` values as `String` /
`List Char`, fallible operations as `Option` / `Except`.  Python `float`
values are modelled as exact rationals (`Rat`); every Python float is a
binary rational and `float.is_integer` / `int(f)` are exact, so the model
is a faithful superset (floating-point literal rounding is out of scope).
-/

namespace ModbusTestApp

/-! ## Character-level helpers shared by the parsers

The Python functions `int(s, 0)` and `decimal.Decimal(s)` both strip surrounding
whitespace.  The model covers the ASCII whitespace characters; the claims
only quantify over literals built from ASCII characters. -/

def isAsciiWs (c : Char) : Bool :=
  c = ' ' || c = '\t' || c = '\n' || c = '\r' || c = Char.ofNat 11 || c = Char.ofNat 12

/-- Strip leading and trailing whitespace, as Python `str.strip()` does. -/
def stripChars (cs : List Char) : List Char :=
  ((cs.dropWhile isAsciiWs).reverse.dropWhile isAsciiWs).reverse

/-- Value of one digit character in the given base (`0-9`, `a-f`, `A-F`). -/
def digitVal (base : Nat) (c : Char) : Option Nat :=
  let v :=
    if '0' ≤ c ∧ c ≤ '9' then some (c.toNat - 48)
    else if 'a' ≤ c ∧ c ≤ 'f' then some (c.toNat - 97 + 10)
    else if 'A' ≤ c ∧ c ≤ 'F' then some (c.toNat - 65 + 10)
    else none
  match v with
  | some d => if d < base then some d else none
  | none => none

/-- Digit run with PEP-515 underscores: each underscore must be followed by a
digit, i.e. the grammar `(["_"] digit)+` (a leading underscore is allowed
here; callers restrict it). -/
def digitGroups (base : Nat) : List Char → Option (List Nat)
  | [] => some []
  | '_' :: c :: rest =>
    match digitVal base c, digitGroups base rest with
    | some d, some ds => some (d :: ds)
    | _, _ => none
  | c :: rest =>
    match digitVal base c, digitGroups base rest with
    | some d, some ds => some (d :: ds)
    | _, _ => none

/-- Non-empty digit run; a leading underscore is only legal directly after a
base marker (`0x_1` is valid Python, `_1` is not). -/
def parseDigitRun (base : Nat) (allowLead : Bool) : List Char → Option (List Nat)
  | [] => none
  | '_' :: rest => if allowLead then digitGroups base ('_' :: rest) else none
  | c :: rest => digitGroups base (c :: rest)

def natOfDigits (base : Nat) (ds : List Nat) : Nat :=
  ds.foldl (fun acc d => acc * base + d) 0

/-- Python base-0 decimal literals reject leading zeros unless the whole
literal is zero (`"00"` is `0`, `"01"` is an error). -/
def decLiteralOk : List Nat → Bool
  | [] => false
  | 0 :: rest => rest.all (· == 0)
  | _ :: _ => true

def parseUnsignedDecimal (cs : List Char) : Option Nat :=
  match parseDigitRun 10 false cs with
  | none => none
  | some ds => if decLiteralOk ds then some (natOfDigits 10 ds) else none

/-- Unsigned part of Python `int(s, 0)`: `0x`/`0o`/`0b` prefixed literals or
a plain decimal literal. -/
def parseUnsignedBase0 (cs : List Char) : Option Nat :=
  match cs with
  | '0' :: c :: rest =>
    if c = 'x' ∨ c = 'X' then (parseDigitRun 16 true rest).map (natOfDigits 16)
    else if c = 'o' ∨ c = 'O' then (parseDigitRun 8 true rest).map (natOfDigits 8)
    else if c = 'b' ∨ c = 'B' then (parseDigitRun 2 true rest).map (natOfDigits 2)
    else parseUnsignedDecimal cs
  | _ => parseUnsignedDecimal cs

/-- Model of Python `int(s, 0)`: strip whitespace, optional sign, then an
integer literal in base 16/8/2 (prefixed) or 10. -/
def int_base0_chars (cs : List Char) : Option Int :=
  match stripChars cs with
  | '+' :: rest => (parseUnsignedBase0 rest).map (fun n => (n : Int))
  | '-' :: rest => (parseUnsignedBase0 rest).map (fun n => -(n : Int))
  | other => (parseUnsignedBase0 other).map (fun n => (n : Int))

def pyIntBase0 (s : String) : Option Int :=
  int_base0_chars s.toList

/-! ## Model of `decimal.Decimal(s)`

A finite decimal string is modelled by its integer coefficient and decimal
exponent: the value is `coeff * 10 ^ exp`.  The pure-Python implementation
strips whitespace and removes underscores before matching the grammar
`sign? (digits ["." digits?] | "." digits) (("e"|"E") sign? digits)?`.
`Infinity`/`NaN` inputs are not finite numbers and error out of
`parse_register_value` either way; the model treats them as parse failures. -/

structure DecVal where
  coeff : Int
  exp : Int
deriving DecidableEq

/-- Longest prefix of base-10 digits. -/
def takeDigits10 : List Char → List Nat × List Char
  | [] => ([], [])
  | c :: rest =>
    match digitVal 10 c with
    | none => ([], c :: rest)
    | some d =>
      let p := takeDigits10 rest
      (d :: p.1, p.2)

/-- The whole remaining input must be a non-empty run of base-10 digits. -/
def parseAllDigits10 (cs : List Char) : Option Nat :=
  match cs with
  | [] => none
  | _ =>
    let p := takeDigits10 cs
    if p.2.isEmpty then some (natOfDigits 10 p.1) else none

/-- Attach the optional exponent part to an unsigned coefficient. -/
def decWithExp (coeff : Nat) (fracLen : Nat) (rest : List Char) : Option DecVal :=
  match rest with
  | [] => some ⟨(coeff : Int), -(fracLen : Int)⟩
  | e :: r =>
    if e = 'e' ∨ e = 'E' then
      match r with
      | '+' :: r2 => (parseAllDigits10 r2).map (fun ev => ⟨(coeff : Int), (ev : Int) - fracLen⟩)
      | '-' :: r2 => (parseAllDigits10 r2).map (fun ev => ⟨(coeff : Int), -(ev : Int) - fracLen⟩)
      | _ => (parseAllDigits10 r).map (fun ev => ⟨(coeff : Int), (ev : Int) - fracLen⟩)
    else none

def parseDecUnsigned (cs : List Char) : Option DecVal :=
  let ip := takeDigits10 cs
  match ip.2 with
  | '.' :: r =>
    let fp := takeDigits10 r
    if ip.1.isEmpty ∧ fp.1.isEmpty then none
    else decWithExp (natOfDigits 10 (ip.1 ++ fp.1)) fp.1.length fp.2
  | rest =>
    if ip.1.isEmpty then none
    else decWithExp (natOfDigits 10 ip.1) 0 rest

def decimal_parse_chars (cs : List Char) : Option DecVal :=
  let cleaned := (stripChars cs).filter (fun c => !(c == '_'))
  match cleaned with
  | '+' :: rest => parseDecUnsigned rest
  | '-' :: rest => (parseDecUnsigned rest).map (fun d => ⟨-d.coeff, d.exp⟩)
  | other => parseDecUnsigned other

/-- Check `d == d.to_integral_value()`: the decimal has zero fractional part. -/
def decIsIntegral (d : DecVal) : Bool :=
  if 0 ≤ d.exp then true else d.coeff % ((10 : Int) ^ (-d.exp).toNat) == 0

/-- Value of `int(d)` for an integral decimal (exact, no truncation happens). -/
def decToInt (d : DecVal) : Int :=
  if 0 ≤ d.exp then d.coeff * (10 : Int) ^ d.exp.toNat
  else d.coeff / ((10 : Int) ^ (-d.exp).toNat)

/-! ## `data_model.py` -/

/-- The `REGISTER_BASES` dict; `none` models a `KeyError` on lookup. -/
def REGISTER_BASES (rt : String) : Option Int :=
  if rt = "holding" then some 40001
  else if rt = "input" then some 30001
  else if rt = "coils" then some 1
  else if rt = "discrete" then some 10001
  else none

/-- Python values that can occur as register values in `parse_register_value`.
`bool` is listed before `int` exactly as the source checks `isinstance`
in that order. -/
inductive PyVal where
  | b (v : Bool)
  | i (v : Int)
  | f (v : Rat)
  | s (v : String)

/-- Guarded locale normalisation in `parse_register_value` (lines 117-120):
only a string containing a comma has its dots removed and its comma turned
into a decimal point. -/
def normaliseCommaChars (text : List Char) : List Char :=
  if text.contains ',' then
    (text.filter (fun c => !(c == '.'))).map (fun c => if c = ',' then '.' else c)
  else text

/-- Model of `parse_register_value` (data_model.py lines 91-127); `none` models a
raised `ValueError`. -/
def parse_register_value : PyVal → Option Int
  | .b v => some (if v then 1 else 0)
  | .i v => some v
  | .f v => if v.den = 1 then some v.num else none
  | .s raw =>
    let text := stripChars raw.toList
    if text.isEmpty then none
    else
      match int_base0_chars text with
      | some n => some n
      | none =>
        match decimal_parse_chars (normaliseCommaChars text) with
        | none => none
        | some d => if decIsIntegral d then some (decToInt d) else none

/-- A dictionary key as accepted by `_human_to_offset`: an `int` or a `str`. -/
inductive PyKey where
  | i (n : Int)
  | s (v : String)

/-- Python `int(address, 0)` for strings, `int(address)` for integers (lines 162-165). -/
def addressToInt : PyKey → Option Int
  | .i n => some n
  | .s v => pyIntBase0 v

/-- Model of `_human_to_offset` (data_model.py lines 152-173); `none` models a
`KeyError` on the base lookup or a `ValueError` from `int(address, 0)`. -/
def human_to_offset (rt : String) (address : PyKey) : Option Int :=
  match REGISTER_BASES rt with
  | none => none
  | some base =>
    match addressToInt address with
    | none => none
    | some address_int =>
      let offset := address_int - base
      if 0 ≤ offset then some offset
      else if 0 ≤ address_int then some address_int
      else some offset

/-- The list comprehension
`[_human_to_offset(self.register_type, address) for address in self.values]`
(line 139); any raised error propagates as `none`. -/
def resolveOffsets (rt : String) : List (PyKey × PyVal) → Option (List Int)
  | [] => some []
  | p :: rest =>
    match human_to_offset rt p.1 with
    | none => none
    | some o =>
      match resolveOffsets rt rest with
      | none => none
      | some os => some (o :: os)

/-- Python `max` over a list, `none` on the empty list (`if not offsets`). -/
def listMax : List Int → Option Int
  | [] => none
  | x :: xs =>
    match listMax xs with
    | none => some x
    | some m => some (max x m)

/-- The assignment loop of `to_block` (lines 144-148): resolve each address
again, skip negative offsets, parse the value and store it.  A Python
`data[offset] = ...` on a 0-based list is `List.set`; the offset is provably
below `max(offsets)+1`, so the write is always in range. -/
def fillLoop (rt : String) (data : List Int) : List (PyKey × PyVal) → Option (List Int)
  | [] => some data
  | p :: rest =>
    match human_to_offset rt p.1 with
    | none => none
    | some offset =>
      if offset < 0 then fillLoop rt data rest
      else
        match parse_register_value p.2 with
        | none => none
        | some v => fillLoop rt (data.set offset.toNat v) rest

/-- Model of `RegisterInitialisation.to_block` (lines 137-149).  The result is the
data list handed to `ModbusSequentialDataBlock(0, data)`; note that Python
`[0] * size` is empty when `size <= 0`, which `(size).toNat` mirrors. -/
def to_block (rt : String) (values : List (PyKey × PyVal)) : Option (List Int) :=
  match resolveOffsets rt values with
  | none => none
  | some offsets =>
    match listMax offsets with
    | none => some [0]
    | some m => fillLoop rt (List.replicate (m + 1).toNat 0) values

/-- Procedure described by the wording of claim C3, for comparison with the
source: the locale normalisation (drop dots, comma to dot) is applied
unconditionally to every string that is not an integer literal. -/
def claimC3_parse_string (raw : String) : Option Int :=
  let text := stripChars raw.toList
  if text.isEmpty then none
  else
    match int_base0_chars text with
    | some n => some n
    | none =>
      let normalised := (text.filter (fun c => !(c == '.'))).map (fun c => if c = ',' then '.' else c)
      match decimal_parse_chars normalised with
      | none => none
      | some d => if decIsIntegral d then some (decToInt d) else none

/-! ## `client.py`

`read_registers` / `write_register` validate their arguments, then call
`_connect_client(host, port)` and issue the protocol call.  The embeddings
below cover the code from the start of each function up to the
`_connect_client` call: an `.error` result is a `ValueError` raised before
any connection is opened or any protocol-library call is made, and an
`.ok` result carries the data with which `_connect_client` and the
protocol call would then be invoked. -/

def READABLE_TYPES : List String := ["holding", "input", "coils", "discrete"]

def WRITABLE_TYPES : List String := ["holding", "coils"]

/-- Python `str.lower()` restricted to ASCII, which is all the recognised
register-type tags use. -/
def lowerChar (c : Char) : Char :=
  if 'A' ≤ c ∧ c ≤ 'Z' then Char.ofNat (c.toNat + 32) else c

def lowerStr (s : String) : String :=
  ⟨s.toList.map lowerChar⟩

/-- Model of `read_registers` (client.py lines 39-58) up to `_connect_client`. -/
def read_registers_toConnect (register_type : String) (address : Int) (count : Int) :
    Except String (String × Int × Int) :=
  let rt := lowerStr register_type
  if rt ∉ READABLE_TYPES then
    .error ("Unsupported register type: " ++ rt)
  else if count < 1 then .error "Count must be at least 1"
  else
    match human_to_offset rt (.i address) with
    | none => .error "KeyError"  -- unreachable: every readable tag has a base
    | some offset =>
      if offset < 0 then .error "Address must be a non-negative integer"
      else .ok (rt, offset, count)

/-- Model of `write_register` (client.py lines 89-106) up to `_connect_client`. -/
def write_register_toConnect (register_type : String) (address : Int) :
    Except String (String × Int) :=
  let rt := lowerStr register_type
  if rt ∉ WRITABLE_TYPES then
    .error ("Register type '" ++ rt ++ "' does not support write operations")
  else
    match human_to_offset rt (.i address) with
    | none => .error "KeyError"  -- unreachable: every writable tag has a base
    | some offset =>
      if offset < 0 then .error "Address must be a non-negative integer"
      else .ok (rt, offset)

/-! ## `servers.py`: `BaseServer` lifecycle

`start()` spawns a background thread running `_start_async`, then blocks on
`self._startup_event.wait()`; the event is set by `_start_async` exactly
once, either after the listener is up (`self._running.set()` first) or in
an exception handler after `self._startup_exception` has been recorded.
Because `start()` does not proceed past the `wait()` until the event fires,
its observable behaviour is the sequential composition modelled by `start`
below; the cross-thread ordering itself is verified separately by the
interleaving transition system `HStep`. -/

/-- Classified failure captured in `self._startup_exception`.  The four
constructors are the four `except` arms of `_start_async` (lines 193-212):
`PermissionError`, other `OSError`, `ModbusException`, anything else. -/
inductive StartupError where
  | permissionError (msg : String)
  | osError (msg : String)
  | modbusError (msg : String)
  | unexpected (msg : String)
deriving DecidableEq

/-- Outcome of the startup attempt inside `_start_async`: the datastore
build, server construction and bind either succeed or raise one of the
classified exception kinds (with the underlying message). -/
inductive StartOutcome where
  | ok
  | permissionDenied
  | osFailure (msg : String)
  | modbusFailure (msg : String)
  | unexpectedFailure (msg : String)
deriving DecidableEq

/-- The replacement message built in the `except PermissionError` arm
(lines 194-197). -/
def permissionMessage (name : String) (port : Int) : String :=
  name ++ " failed to start on port " ++ toString port ++
    ". Permission denied. Please choose a port above 1024."

/-- Behaviour of `_start_async` observed at the moment `self._startup_event.set()` fires:
the value of the `_running` flag and of `_startup_exception`.  On success
`_running` is set before the event; in every failure arm `_running` was
never set and the classified exception is recorded first. -/
def startAsyncResult (name : String) (port : Int) : StartOutcome → Bool × Option StartupError
  | .ok => (true, none)
  | .permissionDenied => (false, some (.permissionError (permissionMessage name port)))
  | .osFailure m => (false, some (.osError m))
  | .modbusFailure m => (false, some (.modbusError m))
  | .unexpectedFailure m => (false, some (.unexpected m))

/-- Fields of `BaseServer` relevant to the lifecycle claims. -/
structure BaseServerState where
  running : Bool
  startupException : Option StartupError

/-- Result of one `start()` call: the new observable state, the exception
re-raised to the caller (line 148-149), and whether a background thread was
spawned (and with it a bind attempted). -/
structure StartResult where
  state : BaseServerState
  raised : Option StartupError
  spawned : Bool

/-- Model of `BaseServer.start` (lines 139-149): a no-op when `is_running()`,
otherwise clear the handshake state, spawn `_run_thread`, block on the
handshake and re-raise any captured startup exception. -/
def start (s : BaseServerState) (name : String) (port : Int) (outcome : StartOutcome) :
    StartResult :=
  if s.running then ⟨s, none, false⟩
  else
    let r := startAsyncResult name port outcome
    ⟨⟨r.1, r.2⟩, r.2, true⟩

/-! ### Interleaving model of the `start()` handshake (claim C8)

Two threads share `_startup_event` (`event`), `_running` (`running`) and
`_startup_exception` (`exc`).  Program counters name the next atomic action
of each thread; the scheduler may interleave them arbitrarily.  The worker
follows `_start_async`: on a successful bind it sets `_running`, then the
event, then parks on the shutdown wait; on a failure it records the
exception, sets the event, then runs the `finally` clearing `_running`.
The caller (`start()`) blocks until the event is set, then reads
`_startup_exception` and returns or raises. -/

inductive WorkerPc where
  | binding       -- building the datastore / constructing and binding the server
  | markRunning   -- bind succeeded, about to run `self._running.set()`
  | signalOk      -- about to run `self._startup_event.set()` (success arm)
  | parked        -- awaiting the shutdown event
  | recordExc     -- about to write `self._startup_exception`
  | signalFail    -- about to run `self._startup_event.set()` (failure arm)
  | finallyClear  -- failure arm `finally`: about to clear `self._running`
  | exited
deriving DecidableEq

inductive CallerPc where
  | waiting   -- blocked in `self._startup_event.wait()`
  | checking  -- woke up, about to read `self._startup_exception`
  | returned  -- `start()` returned normally
  | raised    -- `start()` re-raised the captured exception
deriving DecidableEq

structure HState where
  worker : WorkerPc
  caller : CallerPc
  event : Bool
  running : Bool
  exc : Option StartupError
deriving DecidableEq

/-- State when `start()` has cleared the event and the exception and just
spawned the worker thread (lines 143-146). -/
def HState.init : HState :=
  ⟨.binding, .waiting, false, false, none⟩

/-- The exception `_start_async` would capture for a given outcome. -/
def errOf (name : String) (port : Int) (o : StartOutcome) : Option StartupError :=
  (startAsyncResult name port o).2

/-- One atomic step of either thread. -/
inductive HStep (name : String) (port : Int) (o : StartOutcome) : HState → HState → Prop
  | bindOk (s : HState) : s.worker = .binding → o = .ok →
      HStep name port o s { s with worker := .markRunning }
  | bindFail (s : HState) : s.worker = .binding → errOf name port o ≠ none →
      HStep name port o s { s with worker := .recordExc }
  | markRun (s : HState) : s.worker = .markRunning →
      HStep name port o s { s with worker := .signalOk, running := true }
  | fireOk (s : HState) : s.worker = .signalOk →
      HStep name port o s { s with worker := .parked, event := true }
  | record (s : HState) : s.worker = .recordExc →
      HStep name port o s { s with worker := .signalFail, exc := errOf name port o }
  | fireFail (s : HState) : s.worker = .signalFail →
      HStep name port o s { s with worker := .finallyClear, event := true }
  | clearRun (s : HState) : s.worker = .finallyClear →
      HStep name port o s { s with worker := .exited, running := false }
  | wake (s : HState) : s.caller = .waiting → s.event = true →
      HStep name port o s { s with caller := .checking }
  | retOk (s : HState) : s.caller = .checking → s.exc = none →
      HStep name port o s { s with caller := .returned }
  | retRaise (s : HState) (e : StartupError) : s.caller = .checking → s.exc = some e →
      HStep name port o s { s with caller := .raised }

/-- Reachability from the spawn point under arbitrary interleaving. -/
def HReach (name : String) (port : Int) (o : StartOutcome) : HState → Prop :=
  Relation.ReflTransGen (HStep name port o) HState.init

/-- Inductive invariant of the handshake: the event can only be observed set
after the worker has decided the outcome, with `_running` and
`_startup_exception` already in their final handshake values. -/
def HInv (name : String) (port : Int) (o : StartOutcome) (s : HState) : Prop :=
  (s.worker = .binding → s.event = false ∧ s.running = false ∧ s.exc = none) ∧
  (s.worker = .markRunning → o = .ok ∧ s.event = false ∧ s.running = false ∧ s.exc = none) ∧
  (s.worker = .signalOk → o = .ok ∧ s.event = false ∧ s.running = true ∧ s.exc = none) ∧
  (s.worker = .parked → o = .ok ∧ s.event = true ∧ s.running = true ∧ s.exc = none) ∧
  (s.worker = .recordExc →
    errOf name port o ≠ none ∧ s.event = false ∧ s.running = false ∧ s.exc = none) ∧
  (s.worker = .signalFail →
    s.exc = errOf name port o ∧ errOf name port o ≠ none ∧ s.event = false ∧ s.running = false) ∧
  (s.worker = .finallyClear →
    s.exc = errOf name port o ∧ errOf name port o ≠ none ∧ s.event = true ∧ s.running = false) ∧
  (s.worker = .exited →
    s.exc = errOf name port o ∧ errOf name port o ≠ none ∧ s.event = true ∧ s.running = false) ∧
  (s.caller = .checking → s.event = true) ∧
  (s.caller = .returned → o = .ok ∧ s.running = true ∧ s.exc = none ∧ s.worker = .parked) ∧
  (s.caller = .raised → s.exc = errOf name port o ∧ errOf name port o ≠ none ∧ s.event = true)

/-! ## Theorems -/

/-- Every register type present in `REGISTER_BASES` has a positive base. -/
theorem base_pos {rt : String} {b : Int} (hb : REGISTER_BASES rt = some b) : 0 < b := by
  unfold REGISTER_BASES at hb
  split_ifs at hb <;> cases hb <;> decide

/-- Closed form of `_human_to_offset` on an integer address. -/
theorem human_to_offset_int {rt : String} {b : Int} (hb : REGISTER_BASES rt = some b)
    (a : Int) :
    human_to_offset rt (.i a) =
      some (if 0 ≤ a - b then a - b else if 0 ≤ a then a else a - b) := by
  simp only [human_to_offset, addressToInt, hb]
  split_ifs <;> rfl

/-- Closed form of `_human_to_offset` on a string address that parses. -/
theorem human_to_offset_str {rt : String} {b : Int} (hb : REGISTER_BASES rt = some b)
    {s : String} {n : Int} (hn : pyIntBase0 s = some n) :
    human_to_offset rt (.s s) =
      some (if 0 ≤ n - b then n - b else if 0 ≤ n then n else n - b) := by
  simp only [human_to_offset, addressToInt, hb, hn]
  split_ifs <;> rfl

/-- C1: for every register type in `REGISTER_BASES` and every address given
as an integer or as a string integer literal (decimal, `0x`, `0o`, `0b`),
`_human_to_offset` returns `address - base` when that difference is
non-negative, the address unchanged when the difference is negative but the
address is non-negative, and the negative difference otherwise. -/
theorem human_to_offset_policy (rt : String) (b : Int) (hb : REGISTER_BASES rt = some b) :
    (∀ a : Int,
      (0 ≤ a - b → human_to_offset rt (.i a) = some (a - b)) ∧
      (a - b < 0 → 0 ≤ a → human_to_offset rt (.i a) = some a) ∧
      (a - b < 0 → a < 0 → human_to_offset rt (.i a) = some (a - b))) ∧
    (∀ (s : String) (n : Int), pyIntBase0 s = some n →
      (0 ≤ n - b → human_to_offset rt (.s s) = some (n - b)) ∧
      (n - b < 0 → 0 ≤ n → human_to_offset rt (.s s) = some n) ∧
      (n - b < 0 → n < 0 → human_to_offset rt (.s s) = some (n - b))) := by
  constructor
  · intro a
    rw [human_to_offset_int hb a]
    refine ⟨fun h1 => ?_, fun h1 h2 => ?_, fun h1 h2 => ?_⟩ <;>
      · split_ifs <;> first | rfl | omega
  · intro s n hn
    rw [human_to_offset_str hb hn]
    refine ⟨fun h1 => ?_, fun h1 h2 => ?_, fun h1 h2 => ?_⟩ <;>
      · split_ifs <;> first | rfl | omega

/-- Witness for C1 at concrete inputs: a human holding address, an address
already given as offset, a negative address, and a hex string literal. -/
theorem human_to_offset_policy_witness :
    human_to_offset "holding" (.i 40005) = some 4 ∧
    human_to_offset "holding" (.i 7) = some 7 ∧
    human_to_offset "holding" (.i (-2)) = some (-40003) ∧
    human_to_offset "input" (.s "0x7535") = some 4 := by
  refine ⟨?_, ?_, ?_, ?_⟩
  · simpa using ((human_to_offset_policy "holding" 40001 (by decide)).1 40005).1 (by decide)
  · exact ((human_to_offset_policy "holding" 40001 (by decide)).1 7).2.1 (by decide) (by decide)
  · simpa using ((human_to_offset_policy "holding" 40001 (by decide)).1 (-2)).2.2
      (by decide) (by decide)
  · simpa using (((human_to_offset_policy "input" 30001 (by decide)).2 "0x7535" 30005)
      (by decide)).1 (by decide)

/-- C9: for every register type with a base e the translator succeeds on any
integer address and the resolved offset is non-negative iff the address is;
a negative sentinel can only arise from a negative input address. -/
theorem human_to_offset_sign (rt : String) (b a : Int) (hb : REGISTER_BASES rt = some b) :
    ∃ o : Int, human_to_offset rt (.i a) = some o ∧ (0 ≤ o ↔ 0 ≤ a) := by
  have hbpos := base_pos hb
  rw [human_to_offset_int hb a]
  refine ⟨_, rfl, ?_⟩
  split_ifs <;> omega

/-- Witness for C9 on the coils table at address 5. -/
theorem human_to_offset_sign_witness :
    ∃ o : Int, human_to_offset "coils" (.i 5) = some o ∧ (0 ≤ o ↔ 0 ≤ (5 : Int)) :=
  human_to_offset_sign "coils" 1 5 (by decide)

/-- Counterexample to C3 as stated: `"1.0"` is not an integer literal, and
the unconditional normalisation of the claim would strip the dot and yield `10`,
but the source only normalises strings containing a comma and parses
`"1.0"` as the decimal `1.0`, returning `1`. -/
theorem parse_register_value_normalisation_counterexample :
    parse_register_value (.s "1.0") = some 1 ∧
    claimC3_parse_string "1.0" = some 10 ∧
    (1 : Int) ≠ 10 := by
  refine ⟨by decide, by decide, by decide⟩

/-- C3 (amended): a trimmed-empty string always fails; an integer literal
is returned directly; a string that is not an integer literal is parsed as
an arbitrary-precision decimal and returns its integer value iff the
fractional part is zero — but the locale normalisation (dots removed,
comma turned into a decimal point) is applied only when the string
contains a comma, and the string is parsed unchanged otherwise. -/
theorem parse_register_value_string_amended (raw : String) :
    (stripChars raw.toList = [] → parse_register_value (.s raw) = none) ∧
    (∀ n : Int, int_base0_chars (stripChars raw.toList) = some n →
      parse_register_value (.s raw) = some n) ∧
    (int_base0_chars (stripChars raw.toList) = none → stripChars raw.toList ≠ [] →
      parse_register_value (.s raw) =
        match decimal_parse_chars (normaliseCommaChars (stripChars raw.toList)) with
        | none => none
        | some d => if decIsIntegral d then some (decToInt d) else none) ∧
    ((stripChars raw.toList).contains ',' = false →
      normaliseCommaChars (stripChars raw.toList) = stripChars raw.toList) ∧
    ((stripChars raw.toList).contains ',' = true →
      normaliseCommaChars (stripChars raw.toList) =
        ((stripChars raw.toList).filter (fun c => !(c == '.'))).map
          (fun c => if c = ',' then '.' else c)) := by
  refine ⟨?_, ?_, ?_, ?_, ?_⟩
  · intro h
    simp only [String.toList] at h
    simp only [parse_register_value, String.toList, h, List.isEmpty_nil, if_true]
  · intro n hn
    simp only [String.toList] at hn
    have hne : (stripChars raw.data).isEmpty = false := by
      cases hl : stripChars raw.data with
      | nil => rw [hl] at hn; simp [int_base0_chars, stripChars, parseUnsignedBase0,
          parseUnsignedDecimal, parseDigitRun] at hn
      | cons c cs => rfl
    simp only [parse_register_value, String.toList, hne, Bool.false_eq_true, if_false, hn]
  · intro hn hne
    simp only [String.toList] at hn hne
    have hne2 : (stripChars raw.data).isEmpty = false := by
      cases hl : stripChars raw.data with
      | nil => exact absurd hl hne
      | cons c cs => rfl
    simp only [parse_register_value, String.toList, hne2, Bool.false_eq_true, if_false, hn]
  · intro h
    simp only [String.toList] at h ⊢
    simp only [normaliseCommaChars, h, Bool.false_eq_true, if_false]
  · intro h
    simp only [String.toList] at h ⊢
    simp only [normaliseCommaChars, h, if_true]

/-- Witness for C3: `"2,0"` is not an integer literal and contains a comma,
so the normalised decimal path applies and yields `2`. -/
theorem parse_register_value_string_amended_witness :
    parse_register_value (.s "2,0") = some 2 ∧
    normaliseCommaChars (stripChars "2,0".toList) = "2.0".toList := by
  constructor
  · rw [(parse_register_value_string_amended "2,0").2.2.1 (by decide) (by decide)]
    decide
  · rw [(parse_register_value_string_amended "2,0").2.2.2.2 (by decide)]
    decide

/-- C4: whenever the startup attempt fails, a permission-denied condition is
re-raised as a distinct `PermissionError` whose message advises a port
above 1024, other OS-level failures propagate as the generic `OSError`,
protocol-library failures as `ModbusException`; in all cases the instance
is left not running and the captured exception is exactly what `start()`
raises. -/
theorem start_failure_classification (s : BaseServerState) (name : String) (port : Int)
    (hs : s.running = false) :
    ((start s name port .permissionDenied).raised =
        some (.permissionError (permissionMessage name port)) ∧
      permissionMessage name port =
        name ++ " failed to start on port " ++ toString port ++
          ". Permission denied. Please choose a port above 1024." ∧
      (start s name port .permissionDenied).state.running = false) ∧
    (∀ m : String, (start s name port (.osFailure m)).raised = some (.osError m) ∧
      (start s name port (.osFailure m)).state.running = false) ∧
    (∀ m : String, (start s name port (.modbusFailure m)).raised = some (.modbusError m) ∧
      (start s name port (.modbusFailure m)).state.running = false) ∧
    (∀ o : StartOutcome,
      (start s name port o).raised = (start s name port o).state.startupException) := by
  refine ⟨⟨?_, rfl, ?_⟩, fun m => ⟨?_, ?_⟩, fun m => ⟨?_, ?_⟩, fun o => ?_⟩ <;>
    simp [start, hs, startAsyncResult]

/-- Witness for C4 on a stopped server and port 1. -/
theorem start_failure_classification_witness :
    ((start ⟨false, none⟩ "Battery Server" 1 .permissionDenied).raised =
        some (.permissionError (permissionMessage "Battery Server" 1)) ∧
      permissionMessage "Battery Server" 1 =
        "Battery Server" ++ " failed to start on port " ++ toString (1 : Int) ++
          ". Permission denied. Please choose a port above 1024." ∧
      (start ⟨false, none⟩ "Battery Server" 1 .permissionDenied).state.running = false) ∧
    (∀ m : String,
      (start ⟨false, none⟩ "Battery Server" 1 (.osFailure m)).raised = some (.osError m) ∧
      (start ⟨false, none⟩ "Battery Server" 1 (.osFailure m)).state.running = false) ∧
    (∀ m : String,
      (start ⟨false, none⟩ "Battery Server" 1 (.modbusFailure m)).raised =
        some (.modbusError m) ∧
      (start ⟨false, none⟩ "Battery Server" 1 (.modbusFailure m)).state.running = false) ∧
    (∀ o : StartOutcome,
      (start ⟨false, none⟩ "Battery Server" 1 o).raised =
        (start ⟨false, none⟩ "Battery Server" 1 o).state.startupException) :=
  start_failure_classification ⟨false, none⟩ "Battery Server" 1 rfl

/-- C5: `start()` on a running instance is a no-op: the state is unchanged,
nothing is raised, no background thread is spawned (hence no second bind),
and the instance is still running. -/
theorem start_noop_when_running (s : BaseServerState) (name : String) (port : Int)
    (outcome : StartOutcome) (hs : s.running = true) :
    start s name port outcome = ⟨s, none, false⟩ ∧
    (start s name port outcome).state.running = true ∧
    (start s name port outcome).spawned = false := by
  refine ⟨?_, ?_, ?_⟩ <;> simp [start, hs]

/-- Witness for C5 on a running server. -/
theorem start_noop_when_running_witness :
    start ⟨true, none⟩ "Master Server" 1502 .ok = ⟨⟨true, none⟩, none, false⟩ ∧
    (start ⟨true, none⟩ "Master Server" 1502 .ok).state.running = true ∧
    (start ⟨true, none⟩ "Master Server" 1502 .ok).spawned = false :=
  start_noop_when_running ⟨true, none⟩ "Master Server" 1502 .ok rfl

/-- C6: in `read_registers` an unsupported register type, a count below 1,
or an address resolving to a negative offset each produce a `ValueError`
(`.error`) in the validation prefix, i.e. before `_connect_client` or any
protocol-library call is reached; conversely a reached connection point
implies all three checks passed. -/
theorem read_registers_validation_before_connect (register_type : String)
    (address count : Int) :
    (lowerStr register_type ∉ READABLE_TYPES →
      read_registers_toConnect register_type address count =
        .error ("Unsupported register type: " ++ lowerStr register_type)) ∧
    (lowerStr register_type ∈ READABLE_TYPES → count < 1 →
      read_registers_toConnect register_type address count =
        .error "Count must be at least 1") ∧
    (∀ o : Int, human_to_offset (lowerStr register_type) (.i address) = some o → o < 0 →
      ∃ msg, read_registers_toConnect register_type address count = .error msg) ∧
    (∀ r, read_registers_toConnect register_type address count = .ok r →
      lowerStr register_type ∈ READABLE_TYPES ∧ 1 ≤ count ∧
      human_to_offset (lowerStr register_type) (.i address) = some r.2.1 ∧ 0 ≤ r.2.1) := by
  refine ⟨?_, ?_, ?_, ?_⟩
  · intro h
    unfold read_registers_toConnect
    rw [if_pos h]
  · intro h hc
    unfold read_registers_toConnect
    rw [if_neg (by simpa using h), if_pos hc]
  · intro o ho hneg
    by_cases h : lowerStr register_type ∈ READABLE_TYPES
    · by_cases hc : count < 1
      · refine ⟨"Count must be at least 1", ?_⟩
        unfold read_registers_toConnect
        rw [if_neg (not_not_intro h), if_pos hc]
      · refine ⟨"Address must be a non-negative integer", ?_⟩
        unfold read_registers_toConnect
        rw [if_neg (not_not_intro h), if_neg hc, ho]
        simp [hneg]
    · refine ⟨"Unsupported register type: " ++ lowerStr register_type, ?_⟩
      unfold read_registers_toConnect
      rw [if_pos h]
  · intro r hr
    unfold read_registers_toConnect at hr
    by_cases h1 : lowerStr register_type ∉ READABLE_TYPES
    · rw [if_pos h1] at hr; cases hr
    · rw [if_neg h1] at hr
      by_cases h2 : count < 1
      · rw [if_pos h2] at hr; cases hr
      · rw [if_neg h2] at hr
        rcases ho : human_to_offset (lowerStr register_type) (.i address) with _ | o
        · rw [ho] at hr; cases hr
        · rw [ho] at hr
          by_cases h3 : o < 0
          · simp [h3] at hr
          · simp [h3] at hr
            subst hr
            exact ⟨not_not.mp h1, by omega, by simpa using ho, by show (0 : Int) ≤ o; omega⟩

/-- Witness for C6 covering the three rejection branches. -/
theorem read_registers_validation_before_connect_witness :
    read_registers_toConnect "bogus" 0 1 =
      .error ("Unsupported register type: " ++ lowerStr "bogus") ∧
    read_registers_toConnect "holding" 0 0 = .error "Count must be at least 1" ∧
    ∃ msg, read_registers_toConnect "holding" (-1) 1 = .error msg := by
  refine ⟨?_, ?_, ?_⟩
  · exact (read_registers_validation_before_connect "bogus" 0 1).1 (by decide)
  · exact (read_registers_validation_before_connect "holding" 0 0).2.1 (by decide) (by decide)
  · exact (read_registers_validation_before_connect "holding" (-1) 1).2.2.1
      (-40002) (by decide) (by decide)

/-- C10: both client operations lowercase the register-type tag before
validation, so any capitalization of a recognised tag behaves exactly like
the lowercase tag; in particular every capitalization of the four readable
tags passes the read validation and every capitalization of the two
writable tags passes the write validation (given a valid offset). -/
theorem register_type_case_insensitive (s : String) (address count : Int) :
    (∀ t, t ∈ READABLE_TYPES → lowerStr s = t →
      read_registers_toConnect s address count = read_registers_toConnect t address count) ∧
    (∀ t, t ∈ READABLE_TYPES → lowerStr s = t →
      write_register_toConnect s address = write_register_toConnect t address) ∧
    (∀ t, t ∈ READABLE_TYPES → lowerStr s = t → 1 ≤ count →
      ∀ o : Int, human_to_offset t (.i address) = some o → 0 ≤ o →
        read_registers_toConnect s address count = .ok (t, o, count)) ∧
    (∀ t, t ∈ WRITABLE_TYPES → lowerStr s = t →
      ∀ o : Int, human_to_offset t (.i address) = some o → 0 ≤ o →
        write_register_toConnect s address = .ok (t, o)) := by
  have hread : ∀ t : String, lowerStr t = t →
      lowerStr s = t →
      read_registers_toConnect s address count = read_registers_toConnect t address count := by
    intro t htt hst
    unfold read_registers_toConnect
    rw [hst, htt]
  have hwrite : ∀ t : String, lowerStr t = t →
      lowerStr s = t →
      write_register_toConnect s address = write_register_toConnect t address := by
    intro t htt hst
    unfold write_register_toConnect
    rw [hst, htt]
  have haccept : ∀ u : String, lowerStr u = u → u ∈ READABLE_TYPES → ∀ o : Int,
      human_to_offset u (.i address) = some o → ¬ count < 1 → ¬ o < 0 →
      read_registers_toConnect u address count = .ok (u, o, count) := by
    intro u hu hmem o ho hcn hn
    unfold read_registers_toConnect
    rw [hu, if_neg (not_not_intro hmem), if_neg hcn, ho]
    simp [hn]
  have waccept : ∀ u : String, lowerStr u = u → u ∈ WRITABLE_TYPES → ∀ o : Int,
      human_to_offset u (.i address) = some o → ¬ o < 0 →
      write_register_toConnect u address = .ok (u, o) := by
    intro u hu hmem o ho hn
    unfold write_register_toConnect
    rw [hu, if_neg (not_not_intro hmem), ho]
    simp [hn]
  refine ⟨?_, ?_, ?_, ?_⟩
  · intro t ht hst
    fin_cases ht <;> exact hread _ (by decide) hst
  · intro t ht hst
    fin_cases ht <;> exact hwrite _ (by decide) hst
  · intro t ht hst hc o ho hpos
    have hcn : ¬ count < 1 := by omega
    have hn : ¬ o < 0 := by omega
    fin_cases ht <;>
      · rw [hread _ (by decide) hst]
        exact haccept _ (by decide) (by decide) o ho hcn hn
  · intro t ht hst o ho hpos
    have hn : ¬ o < 0 := by omega
    fin_cases ht <;>
      · rw [hwrite _ (by decide) hst]
        exact waccept _ (by decide) (by decide) o ho hn

/-- Witness for C10: uppercase and mixed-case tags at concrete addresses. -/
theorem register_type_case_insensitive_witness :
    read_registers_toConnect "HOLDING" 40001 1 = .ok ("holding", 0, 1) ∧
    write_register_toConnect "Coils" 3 = .ok ("coils", 2) := by
  constructor
  · exact (register_type_case_insensitive "HOLDING" 40001 1).2.2.1 "holding"
      (by decide) (by decide) (by decide) 0 (by decide) (by decide)
  · exact (register_type_case_insensitive "Coils" 3 1).2.2.2 "coils"
      (by decide) (by decide) 2 (by decide) (by decide)

/-- The result of `listMax` bounds every element of the list. -/
theorem listMax_le {l : List Int} {m : Int} (h : listMax l = some m) :
    ∀ x ∈ l, x ≤ m := by
  induction l generalizing m with
  | nil => cases h
  | cons x xs ih =>
    intro y hy
    simp only [listMax] at h
    rcases hxs : listMax xs with _ | mx
    · rw [hxs] at h
      cases h
      rcases List.mem_cons.mp hy with rfl | hy2
      · exact le_refl y
      · have hnil : xs = [] := by
          cases xs with
          | nil => rfl
          | cons z zs =>
            simp only [listMax] at hxs
            rcases hq : listMax zs with _ | mm <;> rw [hq] at hxs <;> cases hxs
        rw [hnil] at hy2
        cases hy2
    · rw [hxs] at h
      cases h
      rcases List.mem_cons.mp hy with rfl | hy2
      · exact le_max_left _ _
      · exact le_trans (ih hxs y hy2) (le_max_right _ _)

/-- Elementwise reading of a successful `resolveOffsets` run. -/
theorem resolveOffsets_sound (rt : String) :
    ∀ (values : List (PyKey × PyVal)) (offs : List Int),
    resolveOffsets rt values = some offs →
    values.length = offs.length ∧
    ∀ i (h1 : i < values.length) (h2 : i < offs.length),
      human_to_offset rt (values.get ⟨i, h1⟩).1 = some (offs.get ⟨i, h2⟩) := by
  intro values
  induction values with
  | nil =>
    intro offs h
    cases h
    exact ⟨rfl, fun i h1 h2 => absurd h1 (by simp)⟩
  | cons p rest ih =>
    intro offs h
    simp only [resolveOffsets] at h
    rcases hp : human_to_offset rt p.1 with _ | o
    · rw [hp] at h; cases h
    · rw [hp] at h
      rcases hrest : resolveOffsets rt rest with _ | os
      · rw [hrest] at h; cases h
      · rw [hrest] at h
        cases h
        obtain ⟨hlen, helem⟩ := ih os hrest
        refine ⟨by simp [hlen], ?_⟩
        intro i h1 h2
        cases i with
        | zero => simpa using hp
        | succ j =>
          simpa using helem j (by simpa using h1) (by simpa using h2)

/-- Reading with `get?` at an in-range index just written by `List.set`. -/
theorem get?_set_self {α : Type} (l : List α) (i : Nat) (a : α) (h : i < l.length) :
    (l.set i a).get? i = some a :=
  List.get?_set_eq_of_lt a h

/-- Behaviour of the `to_block` assignment loop: it succeeds whenever every
value at a non-negative offset parses, it preserves the block length,
leaves untargeted cells unchanged, and (when the resolved offsets are
pairwise distinct) stores each parsed value at its offset. -/
theorem fillLoop_spec (rt : String) :
    ∀ (values : List (PyKey × PyVal)) (offs : List Int) (data : List Int),
    resolveOffsets rt values = some offs →
    (∀ i (h1 : i < values.length) (h2 : i < offs.length),
        0 ≤ offs.get ⟨i, h2⟩ → ∃ v, parse_register_value (values.get ⟨i, h1⟩).2 = some v) →
    (∀ i (h2 : i < offs.length),
        0 ≤ offs.get ⟨i, h2⟩ → (offs.get ⟨i, h2⟩).toNat < data.length) →
    ∃ data2, fillLoop rt data values = some data2 ∧
      data2.length = data.length ∧
      (∀ j : Nat, (∀ i (h2 : i < offs.length),
          ¬(0 ≤ offs.get ⟨i, h2⟩ ∧ (offs.get ⟨i, h2⟩).toNat = j)) →
        data2.get? j = data.get? j) ∧
      (offs.Nodup →
        ∀ i (h1 : i < values.length) (h2 : i < offs.length) (v : Int),
          0 ≤ offs.get ⟨i, h2⟩ → parse_register_value (values.get ⟨i, h1⟩).2 = some v →
          data2.get? (offs.get ⟨i, h2⟩).toNat = some v) := by
  intro values
  induction values with
  | nil =>
    intro offs data h _ _
    cases h
    exact ⟨data, rfl, rfl, fun j _ => rfl, fun _ i h1 => absurd h1 (by simp)⟩
  | cons p rest ih =>
    intro offs data h hparse hlen
    simp only [resolveOffsets] at h
    rcases hp : human_to_offset rt p.1 with _ | o
    · rw [hp] at h; cases h
    · rw [hp] at h
      rcases hrest : resolveOffsets rt rest with _ | os
      · rw [hrest] at h; cases h
      · rw [hrest] at h
        cases h
        by_cases hneg : o < 0
        · -- negative offset: the entry is skipped, even if its value
          -- would not parse
          obtain ⟨data2, hfill, hlen2, huntouched, hplace⟩ := ih os data hrest
            (fun i h1 h2 hge => hparse (i + 1) (by simpa using h1) (by simpa using h2)
              (by simpa using hge))
            (fun i h2 hge => hlen (i + 1) (by simpa using h2) (by simpa using hge))
          refine ⟨data2, ?_, hlen2, ?_, ?_⟩
          · simp only [fillLoop, hp, if_pos hneg]
            exact hfill
          · intro j hj
            exact huntouched j (fun i h2 => hj (i + 1) (by simpa using h2))
          · intro hnd i h1 h2 v hge hv
            cases i with
            | zero => exact absurd hge (by simpa using hneg)
            | succ k =>
              exact hplace (List.nodup_cons.mp hnd).2 k (by simpa using h1)
                (by simpa using h2) v (by simpa using hge) (by simpa using hv)
        · -- non-negative offset: the parsed value is written at `o`
          have hge0 : (0 : Int) ≤ o := by omega
          obtain ⟨v0, hv0⟩ := hparse 0 (by simp) (by simp) (by simpa using hge0)
          have hv0s : parse_register_value p.2 = some v0 := by simpa using hv0
          have hlt : o.toNat < data.length := by simpa using hlen 0 (by simp) (by simpa using hge0)
          obtain ⟨data2, hfill, hlen2, huntouched, hplace⟩ :=
            ih os (data.set o.toNat v0) hrest
              (fun i h1 h2 hge => hparse (i + 1) (by simpa using h1) (by simpa using h2)
                (by simpa using hge))
              (fun i h2 hge => by
                rw [List.length_set]
                exact hlen (i + 1) (by simpa using h2) (by simpa using hge))
          refine ⟨data2, ?_, ?_, ?_, ?_⟩
          · simp only [fillLoop, hp, if_neg hneg, hv0s]
            exact hfill
          · rw [hlen2, List.length_set]
          · intro j hj
            have h0 := hj 0 (by simp)
            have hne : o.toNat ≠ j := by
              intro hEq
              exact h0 ⟨by simpa using hge0, by simpa using hEq⟩
            rw [huntouched j (fun i h2 => hj (i + 1) (by simpa using h2))]
            exact List.get?_set_ne v0 data hne
          · intro hnd i h1 h2 v hge hv
            obtain ⟨hnotmem, hndtail⟩ := List.nodup_cons.mp hnd
            cases i with
            | zero =>
              have hvv : v = v0 := by
                have h5 : (some v0 : Option Int) = some v := hv0s.symm.trans (by simpa using hv)
                exact (Option.some.inj h5).symm
              have htail : ∀ i (h2 : i < os.length),
                  ¬(0 ≤ os.get ⟨i, h2⟩ ∧ (os.get ⟨i, h2⟩).toNat = o.toNat) := by
                intro k hk hcontra
                obtain ⟨hkge, hkeq⟩ := hcontra
                have : os.get ⟨k, hk⟩ = o := by omega
                exact hnotmem (this ▸ List.get_mem os k hk)
              rw [show (((o :: os).get ⟨0, h2⟩).toNat) = o.toNat by simp]
              rw [huntouched o.toNat htail, hvv]
              exact get?_set_self data o.toNat v0 hlt
            | succ k =>
              exact hplace hndtail k (by simpa using h1) (by simpa using h2) v
                (by simpa using hge) (by simpa using hv)

/-- Counterexample to C2 as stated, at two concrete inputs.  Size: in
`{-5: anything}` on the coils table the single address resolves to offset
`-6`, so `size = max(offsets)+1 = -5` and `[0] * -5` is the empty list —
the block has size 0, not the claimed minimum size 1.  Placement: in
`{"40001": 1, "0": 2}` on the holding table both distinct addresses
resolve to offset 0 and the finished block is `[2]`, so the parsed value
`1` of the first entry is not at its resolved offset. -/
theorem to_block_size_and_collision_counterexample :
    (to_block "coils" [(PyKey.i (-5), PyVal.b false)] = some [] ∧
      (to_block "coils" [(PyKey.i (-5), PyVal.b false)]).map List.length = some 0 ∧
      (0 : Nat) < 1) ∧
    (human_to_offset "holding" (.s "40001") = some 0 ∧
      human_to_offset "holding" (.s "0") = some 0 ∧
      parse_register_value (PyVal.i 1) = some 1 ∧
      to_block "holding" [(PyKey.s "40001", PyVal.i 1), (PyKey.s "0", PyVal.i 2)] =
        some [2] ∧
      (2 : Int) ≠ 1) := by
  refine ⟨⟨by decide, by decide, by decide⟩,
    by decide, by decide, by decide, by decide, by decide⟩

/-- C2 (amended): building the initial block resolves each address, and
for a non-empty mapping sizes the block to `max(offset)+1` cells — which is
the empty block, not one of size 1, when every offset is negative; the
empty mapping yields the one-cell block `[0]`.  Each parsed value lands at
its resolved offset provided the resolved offsets are pairwise distinct,
unset cells hold 0, and addresses resolving to a negative offset are
skipped without failing (their values need not even parse). -/
theorem to_block_amended (rt : String) (values : List (PyKey × PyVal)) :
    (values = [] → to_block rt values = some [0]) ∧
    (∀ (offs : List Int) (m : Int),
      resolveOffsets rt values = some offs → listMax offs = some m →
      (∀ i (h1 : i < values.length) (h2 : i < offs.length),
          0 ≤ offs.get ⟨i, h2⟩ → ∃ v, parse_register_value (values.get ⟨i, h1⟩).2 = some v) →
      ∃ data, to_block rt values = some data ∧
        data.length = (m + 1).toNat ∧
        (∀ j : Nat, j < data.length →
          (∀ i (h2 : i < offs.length),
            ¬(0 ≤ offs.get ⟨i, h2⟩ ∧ (offs.get ⟨i, h2⟩).toNat = j)) →
          data.get? j = some 0) ∧
        (offs.Nodup →
          ∀ i (h1 : i < values.length) (h2 : i < offs.length) (v : Int),
            0 ≤ offs.get ⟨i, h2⟩ → parse_register_value (values.get ⟨i, h1⟩).2 = some v →
            data.get? (offs.get ⟨i, h2⟩).toNat = some v)) := by
  constructor
  · intro h
    subst h
    rfl
  · intro offs m hoffs hmax hparse
    have hlen : ∀ i (h2 : i < offs.length), 0 ≤ offs.get ⟨i, h2⟩ →
        (offs.get ⟨i, h2⟩).toNat < (List.replicate (m + 1).toNat (0 : Int)).length := by
      intro i h2 hge
      rw [List.length_replicate]
      have := listMax_le hmax (offs.get ⟨i, h2⟩) (List.get_mem offs i h2)
      omega
    obtain ⟨data, hfill, hlen2, huntouched, hplace⟩ :=
      fillLoop_spec rt values offs (List.replicate (m + 1).toNat 0) hoffs hparse hlen
    refine ⟨data, ?_, ?_, ?_, hplace⟩
    · simp only [to_block, hoffs, hmax]
      exact hfill
    · rw [hlen2, List.length_replicate]
    · intro j hj hnone
      rw [huntouched j hnone]
      rw [hlen2, List.length_replicate] at hj
      rw [List.get?_eq_get (by simpa using hj)]
      simp [List.get_replicate]

/-- Witness for C2 at concrete inputs: the empty mapping and a singleton
mapping at human holding address 40003. -/
theorem to_block_amended_witness :
    to_block "holding" [] = some [0] ∧
    ∃ data, to_block "holding" [(PyKey.i 40003, PyVal.i 9)] = some data ∧
      data.length = 3 ∧ data.get? 0 = some 0 ∧ data.get? 2 = some 9 := by
  constructor
  · exact (to_block_amended "holding" []).1 rfl
  · obtain ⟨data, h1, h2, h3, h4⟩ :=
      (to_block_amended "holding" [(PyKey.i 40003, PyVal.i 9)]).2 [2] 2
        (by decide) (by decide)
        (fun i h1 h2 hge => ⟨9, by
          have hlt : i < 1 := by simpa using h1
          have hi : i = 0 := by omega
          subst hi
          rfl⟩)
    refine ⟨data, h1, by simpa using h2, ?_, ?_⟩
    · refine h3 0 (by omega) ?_
      intro i h2c
      have hlt : i < 1 := by simpa using h2c
      have hi : i = 0 := by omega
      subst hi
      exact (by decide : ¬(0 ≤ (2 : Int) ∧ (2 : Int).toNat = 0))
    · have := h4 (by decide) 0 (by decide) (by decide) 9 (by decide) (by decide)
      simpa using this

/-- C7: for every register type, every human address `a ≥ base` and every
parseable value `v`, building a block from the singleton mapping `{a: v}`
and reading the cell at offset `a - base` yields the parsed `v`. -/
theorem to_block_roundtrip (rt : String) (b : Int) (hb : REGISTER_BASES rt = some b)
    (a : Int) (ha : b ≤ a) (v : PyVal) (w : Int)
    (hv : parse_register_value v = some w) :
    ∃ data, to_block rt [(PyKey.i a, v)] = some data ∧
      data.get? (a - b).toNat = some w := by
  have hbpos := base_pos hb
  have hoff : human_to_offset rt (.i a) = some (a - b) := by
    rw [human_to_offset_int hb a, if_pos (by omega)]
  have hoffs : resolveOffsets rt [(PyKey.i a, v)] = some [a - b] := by
    simp only [resolveOffsets, hoff]
  have hmax : listMax [a - b] = some (a - b) := rfl
  have hlenr : ∀ i (h2 : i < ([a - b] : List Int).length),
      0 ≤ ([a - b] : List Int).get ⟨i, h2⟩ →
      (([a - b] : List Int).get ⟨i, h2⟩).toNat <
        (List.replicate (a - b + 1).toNat (0 : Int)).length := by
    intro i h2 hge
    have hlt : i < 1 := by simpa using h2
    have hi : i = 0 := by omega
    subst hi
    have hg : ([a - b] : List Int).get ⟨0, h2⟩ = a - b := rfl
    rw [hg, List.length_replicate]
    omega
  obtain ⟨data, hfill, hlen2, hunt, hplace⟩ :=
    fillLoop_spec rt [(PyKey.i a, v)] [a - b] (List.replicate (a - b + 1).toNat 0) hoffs
      (fun i h1 h2 hge => ⟨w, by
        have hlt : i < 1 := by simpa using h1
        have hi : i = 0 := by omega
        subst hi
        simpa using hv⟩)
      hlenr
  refine ⟨data, ?_, ?_⟩
  · simp only [to_block, hoffs, hmax]
    exact hfill
  · have := hplace (by simp) 0 (by simp) (by simp) w
      (by simpa using show (0 : Int) ≤ a - b by omega) (by simpa using hv)
    simpa using this

/-- Witness for C7: the holding register at human address 40010 with the
German-decimal string value `"1234,0"` reads back as 1234 at offset 9. -/
theorem to_block_roundtrip_witness :
    ∃ data, to_block "holding" [(PyKey.i 40010, PyVal.s "1234,0")] = some data ∧
      data.get? ((40010 : Int) - 40001).toNat = some 1234 :=
  to_block_roundtrip "holding" 40001 (by decide) 40010 (by decide)
    (PyVal.s "1234,0") 1234 (by decide)

/-- The handshake invariant holds in the initial state. -/
theorem hinv_init (name : String) (port : Int) (o : StartOutcome) :
    HInv name port o HState.init := by
  simp [HInv, HState.init]

/-- The handshake invariant is preserved by every atomic step. -/
theorem hinv_step {name : String} {port : Int} {o : StartOutcome} {s t : HState}
    (hst : HStep name port o s t) (hs : HInv name port o s) : HInv name port o t := by
  obtain ⟨w, c, ev, run, ex⟩ := s
  obtain ⟨i1, i2, i3, i4, i5, i6, i7, i8, i9, i10, i11⟩ := hs
  cases hst with
  | bindOk hw ho =>
    subst ho
    exact ⟨fun h => (nomatch h),
      fun _ => ⟨rfl, (i1 hw).1, (i1 hw).2.1, (i1 hw).2.2⟩,
      fun h => (nomatch h), fun h => (nomatch h), fun h => (nomatch h),
      fun h => (nomatch h), fun h => (nomatch h), fun h => (nomatch h),
      fun h => i9 h,
      fun h => absurd (hw.symm.trans (i10 h).2.2.2) (by decide),
      fun h => i11 h⟩
  | bindFail hw hne =>
    exact ⟨fun h => (nomatch h), fun h => (nomatch h), fun h => (nomatch h), fun h => (nomatch h),
      fun _ => ⟨hne, (i1 hw).1, (i1 hw).2.1, (i1 hw).2.2⟩,
      fun h => (nomatch h), fun h => (nomatch h), fun h => (nomatch h),
      fun h => i9 h,
      fun h => absurd (hw.symm.trans (i10 h).2.2.2) (by decide),
      fun h => i11 h⟩
  | markRun hw =>
    exact ⟨fun h => (nomatch h), fun h => (nomatch h),
      fun _ => ⟨(i2 hw).1, (i2 hw).2.1, rfl, (i2 hw).2.2.2⟩,
      fun h => (nomatch h), fun h => (nomatch h), fun h => (nomatch h),
      fun h => (nomatch h), fun h => (nomatch h),
      fun h => i9 h,
      fun h => absurd (hw.symm.trans (i10 h).2.2.2) (by decide),
      fun h => i11 h⟩
  | fireOk hw =>
    exact ⟨fun h => (nomatch h), fun h => (nomatch h), fun h => (nomatch h),
      fun _ => ⟨(i3 hw).1, rfl, (i3 hw).2.2.1, (i3 hw).2.2.2⟩,
      fun h => (nomatch h), fun h => (nomatch h), fun h => (nomatch h), fun h => (nomatch h),
      fun _ => rfl,
      fun h => absurd (hw.symm.trans (i10 h).2.2.2) (by decide),
      fun h => ⟨(i11 h).1, (i11 h).2.1, rfl⟩⟩
  | record hw =>
    exact ⟨fun h => (nomatch h), fun h => (nomatch h), fun h => (nomatch h), fun h => (nomatch h),
      fun h => (nomatch h),
      fun _ => ⟨rfl, (i5 hw).1, (i5 hw).2.1, (i5 hw).2.2.1⟩,
      fun h => (nomatch h), fun h => (nomatch h),
      fun h => i9 h,
      fun h => absurd (hw.symm.trans (i10 h).2.2.2) (by decide),
      fun h => ⟨rfl, (i5 hw).1, (i11 h).2.2⟩⟩
  | fireFail hw =>
    exact ⟨fun h => (nomatch h), fun h => (nomatch h), fun h => (nomatch h), fun h => (nomatch h),
      fun h => (nomatch h), fun h => (nomatch h),
      fun _ => ⟨(i6 hw).1, (i6 hw).2.1, rfl, (i6 hw).2.2.2⟩,
      fun h => (nomatch h),
      fun _ => rfl,
      fun h => absurd (hw.symm.trans (i10 h).2.2.2) (by decide),
      fun h => ⟨(i11 h).1, (i11 h).2.1, rfl⟩⟩
  | clearRun hw =>
    exact ⟨fun h => (nomatch h), fun h => (nomatch h), fun h => (nomatch h), fun h => (nomatch h),
      fun h => (nomatch h), fun h => (nomatch h), fun h => (nomatch h),
      fun _ => ⟨(i7 hw).1, (i7 hw).2.1, (i7 hw).2.2.1, rfl⟩,
      fun h => i9 h,
      fun h => absurd (hw.symm.trans (i10 h).2.2.2) (by decide),
      fun h => i11 h⟩
  | wake hc hev =>
    exact ⟨fun h => i1 h, fun h => i2 h, fun h => i3 h, fun h => i4 h,
      fun h => i5 h, fun h => i6 h, fun h => i7 h, fun h => i8 h,
      fun _ => hev,
      fun h => (nomatch h),
      fun h => (nomatch h)⟩
  | retOk hc hexc =>
    have hev := i9 hc
    refine ⟨fun h => i1 h, fun h => i2 h, fun h => i3 h, fun h => i4 h,
      fun h => i5 h, fun h => i6 h, fun h => i7 h, fun h => i8 h,
      fun h => (nomatch h), fun _ => ?_, fun h => (nomatch h)⟩
    -- the caller returns with no exception: the worker must be parked,
    -- because every other worker location with the event set carries a
    -- non-`none` exception
    rcases hw : w with _ | _ | _ | _ | _ | _ | _ | _
    · rw [(i1 hw).1] at hev; cases hev
    · rw [(i2 hw).2.1] at hev; cases hev
    · rw [(i3 hw).2.1] at hev; cases hev
    · exact ⟨(i4 hw).1, (i4 hw).2.2.1, hexc, rfl⟩
    · rw [(i5 hw).2.1] at hev; cases hev
    · rw [(i6 hw).2.2.1] at hev; cases hev
    · exact absurd (((i7 hw).1.symm.trans hexc)) (i7 hw).2.1
    · exact absurd (((i8 hw).1.symm.trans hexc)) (i8 hw).2.1
  | retRaise e hc hexc =>
    have hev := i9 hc
    refine ⟨fun h => i1 h, fun h => i2 h, fun h => i3 h, fun h => i4 h,
      fun h => i5 h, fun h => i6 h, fun h => i7 h, fun h => i8 h,
      fun h => (nomatch h), fun h => (nomatch h), fun _ => ?_⟩
    -- the caller raises a captured exception: the worker is past the
    -- failure signal
    rcases hw : w with _ | _ | _ | _ | _ | _ | _ | _
    · rw [(i1 hw).1] at hev; cases hev
    · rw [(i2 hw).2.1] at hev; cases hev
    · rw [(i3 hw).2.1] at hev; cases hev
    · exact nomatch ((i4 hw).2.2.2.symm.trans hexc)
    · rw [(i5 hw).2.1] at hev; cases hev
    · rw [(i6 hw).2.2.1] at hev; cases hev
    · exact ⟨(i7 hw).1, (i7 hw).2.1, (i7 hw).2.2.1⟩
    · exact ⟨(i8 hw).1, (i8 hw).2.1, (i8 hw).2.2.1⟩

/-- The handshake invariant holds in every reachable state. -/
theorem hinv_reach (name : String) (port : Int) (o : StartOutcome) (s : HState)
    (h : HReach name port o s) : HInv name port o s := by
  unfold HReach at h
  induction h with
  | refl => exact hinv_init name port o
  | tail hab hbc ih => exact hinv_step hbc ih

/-- C8: under every interleaving of the caller of `start()` and the
background thread, the caller can only have returned normally once the
listener was bound (running flag set, no captured exception, successful
outcome) and can only have raised once a failure was captured, raising
exactly the captured exception; while the handshake event is unset the
caller is still blocked in `wait()`.  `start()` is therefore synchronous:
it returns or raises only after the listener is bound or has failed. -/
theorem start_handshake_sync (name : String) (port : Int) (o : StartOutcome) (s : HState)
    (h : HReach name port o s) :
    (s.caller = .returned → s.running = true ∧ s.exc = none ∧ errOf name port o = none) ∧
    (s.caller = .raised → ∃ e, errOf name port o = some e ∧ s.exc = some e) ∧
    (s.event = false → s.caller = .waiting) := by
  obtain ⟨i1, i2, i3, i4, i5, i6, i7, i8, i9, i10, i11⟩ := hinv_reach name port o s h
  refine ⟨?_, ?_, ?_⟩
  · intro hc
    obtain ⟨ho, hrun, hexc, hw⟩ := i10 hc
    subst ho
    exact ⟨hrun, hexc, rfl⟩
  · intro hc
    obtain ⟨hexc, hne, hev⟩ := i11 hc
    rcases he : errOf name port o with _ | e
    · exact absurd he hne
    · exact ⟨e, rfl, by rw [hexc, he]⟩
  · intro hev
    rcases hc : s.caller with _ | _ | _ | _
    · rfl
    · rw [i9 hc] at hev; cases hev
    · obtain ⟨ho, hrun, hexc, hw⟩ := i10 hc
      rw [(i4 hw).2.1] at hev; cases hev
    · obtain ⟨hexc, hne, hevt⟩ := i11 hc
      rw [hevt] at hev; cases hev

/-- Witness for C8: the explicit successful-bind interleaving, after which
the caller has returned with the server running and no exception. -/
theorem start_handshake_sync_witness :
    (⟨.parked, .returned, true, true, none⟩ : HState).running = true ∧
    (⟨.parked, .returned, true, true, none⟩ : HState).exc = none ∧
    errOf "Battery Server" 1502 .ok = none := by
  have h1 : HStep "Battery Server" 1502 .ok HState.init
      ⟨.markRunning, .waiting, false, false, none⟩ :=
    HStep.bindOk _ rfl rfl
  have h2 : HStep "Battery Server" 1502 .ok ⟨.markRunning, .waiting, false, false, none⟩
      ⟨.signalOk, .waiting, false, true, none⟩ :=
    HStep.markRun _ rfl
  have h3 : HStep "Battery Server" 1502 .ok ⟨.signalOk, .waiting, false, true, none⟩
      ⟨.parked, .waiting, true, true, none⟩ :=
    HStep.fireOk _ rfl
  have h4 : HStep "Battery Server" 1502 .ok ⟨.parked, .waiting, true, true, none⟩
      ⟨.parked, .checking, true, true, none⟩ :=
    HStep.wake _ rfl rfl
  have h5 : HStep "Battery Server" 1502 .ok ⟨.parked, .checking, true, true, none⟩
      ⟨.parked, .returned, true, true, none⟩ :=
    HStep.retOk _ rfl rfl
  have hreach : HReach "Battery Server" 1502 .ok ⟨.parked, .returned, true, true, none⟩ :=
    Relation.ReflTransGen.head h1 (Relation.ReflTransGen.head h2
      (Relation.ReflTransGen.head h3 (Relation.ReflTransGen.head h4
        (Relation.ReflTransGen.head h5 Relation.ReflTransGen.refl))))
  exact (start_handshake_sync "Battery Server" 1502 .ok _ hreach).1 rfl

end ModbusTestApp
